import Mathlib

/-!
Verification of simgrep (src/main.rs): a recursive, concurrency-bounded
text search tool. Strings are modelled as `List Char`; the filesystem, the
semaphore and the per-file IO outcomes are modelled explicitly so that the
functions of the source translate to pure Lean functions.
-/

namespace Simgrep

/-- Strings (Rust `String` / `&str`) modelled as lists of characters. -/
abbrev Str := List Char

/-! ## Rust `str` primitives used by the source: `contains` and `replace` -/

/-- Rust `str::starts_with` for pattern lists. -/
def startsWith : Str → Str → Bool
  | _, [] => true
  | [], _ :: _ => false
  | c :: cs, d :: ds => c == d && startsWith cs ds

/-- Rust `str::contains` (contiguous substring, exact, case-sensitive). -/
def containsSub : Str → Str → Bool
  | s, p =>
    startsWith s p ||
      match s with
      | [] => false
      | _ :: cs => containsSub cs p

/-- The non-empty-pattern loop of Rust `str::replace`: scan left to right,
at each position replace the leftmost occurrence of `p` by `r` and continue
after it (non-overlapping). -/
def replaceLoop (p r : Str) : Str → Str
  | [] => []
  | c :: cs =>
    if p ≠ [] ∧ startsWith (c :: cs) p then
      r ++ replaceLoop p r ((c :: cs).drop p.length)
    else
      c :: replaceLoop p r cs
termination_by s => s.length
decreasing_by
  · rename_i h
    simp only [List.length_drop, List.length_cons]
    have hp : p.length ≠ 0 := by
      intro hlen
      exact h.1 (List.length_eq_zero.mp hlen)
    omega
  · simp

/-- Rust `str::replace s p r`: for an empty pattern, `r` is inserted at
every char boundary (including both ends); otherwise the left-to-right
non-overlapping replacement loop. -/
def rustReplace (s p r : Str) : Str :=
  if p = [] then r ++ s.flatMap (fun c => c :: r) else replaceLoop p r s

/-! ## ANSI colour model (the `colored` crate) -/

/-- The escape character starting an ANSI colour sequence. -/
def escChar : Char := Char.ofNat 27

/-- `colored`'s blue foreground code, `ESC [ 3 4 m`. -/
def blueCode : Str := [escChar, '[', '3', '4', 'm']

/-- `colored`'s red foreground code, `ESC [ 3 1 m`. -/
def redCode : Str := [escChar, '[', '3', '1', 'm']

/-- `colored`'s reset code, `ESC [ 0 m`. -/
def resetCode : Str := [escChar, '[', '0', 'm']

/-- `s.blue().to_string()`: the text wrapped in colour-on / colour-off. -/
def blueStr (s : Str) : Str := blueCode ++ s ++ resetCode

/-- Strip ANSI escape sequences from rendered text: outside a sequence
(`inEsc = false`) characters pass through and `ESC` enters a sequence;
inside a sequence characters are dropped up to and including `'m'`. -/
def stripAnsi : Bool → Str → Str
  | _, [] => []
  | true, c :: cs => if c == 'm' then stripAnsi false cs else stripAnsi true cs
  | false, c :: cs => if c == escChar then stripAnsi true cs else c :: stripAnsi false cs

/-! ## The `Match` struct and the formatter -/

/-- `struct Match { file_path, line_number, line }`. -/
structure Match where
  file_path : Str
  line_number : Nat
  line : Str
deriving DecidableEq, Repr

/-- Rust `format!("{:<width$}", s)`: left-aligned padding with spaces, never
truncating. -/
def padLeftAlign (s : Str) (width : Nat) : Str :=
  s ++ List.replicate (width - s.length) ' '

/-- The `file_ref` string `format!("{}:{}", self.file_path, self.line_number)`. -/
def fileRefOf (m : Match) : Str :=
  m.file_path ++ ':' :: Nat.toDigits 10 m.line_number

/-- The column separator glyph appended after the padded file reference. -/
def sepGlyph : Char := '│'

/-- `Match::format_as_result`: pad `file_ref` to
`max_path_length.unwrap_or(0) + max_line_number_length.unwrap_or(0) + 1`,
append the separator glyph, colour the whole prefix red, and append the
line with every occurrence of the pattern replaced by its blue form. -/
def format_as_result (m : Match) (pattern : Str)
    (max_path_length max_line_number_length : Option Nat) : Str :=
  let file_ref := fileRefOf m
  let pattern_replace := blueStr pattern
  let pattern_text := rustReplace m.line pattern pattern_replace
  let path_width := max_path_length.getD 0
  let line_number_width := max_line_number_length.getD 0
  let file_ref_width := path_width + line_number_width + 1
  let file_ref_value := padLeftAlign file_ref file_ref_width ++ [sepGlyph]
  (redCode ++ file_ref_value ++ resetCode) ++ pattern_text

/-- Rust `Iterator::max` over a list of naturals (`None` on empty input). -/
def iterMax : List Nat → Option Nat
  | [] => none
  | x :: xs =>
    some (match iterMax xs with
          | none => x
          | some y => max x y)

/-- `matches.iter().map(|x| x.file_path.as_str().len()).max()`. -/
def maxPathLength (ms : List Match) : Option Nat :=
  iterMax (ms.map fun m => m.file_path.length)

/-- `matches.iter().map(|x| x.line_number.to_string().len()).max()`. -/
def maxLineNumberLength (ms : List Match) : Option Nat :=
  iterMax (ms.map fun m => (Nat.toDigits 10 m.line_number).length)

/-! ## FileClassifier (`file_is_text`) -/

/-- `content_inspector::ContentType`. -/
inductive ContentType where
  | UTF_8
  | UTF_8_BOM
  | UTF_16LE
  | UTF_16BE
  | UTF_32LE
  | UTF_32BE
  | BINARY
deriving DecidableEq, Repr

/-- The `match detected_content_type` arms of `file_is_text`: every
recognized Unicode encoding is text, `BINARY` is not. -/
def detectedAsText : ContentType → Bool
  | .UTF_8 => true
  | .UTF_8_BOM => true
  | .UTF_16LE => true
  | .UTF_16BE => true
  | .UTF_32LE => true
  | .UTF_32BE => true
  | .BINARY => false

/-- Model of one file on disk as the classifier sees it: whether
`File::open` fails (with which OS error text), whether `metadata()` fails,
the length reported by the metadata, and the bytes actually available to
`read_exact`. -/
structure FileModel where
  openErr : Option Str
  metadataErr : Option Str
  length : Nat
  content : List Nat
deriving DecidableEq, Repr

/-- Error text `format!("error opening file: {path_buf}. {err}")`. -/
def openErrMsg (path e : Str) : Str :=
  "error opening file: ".toList ++ path ++ ". ".toList ++ e

/-- Error text `format!("error getting file metadata: {path_buf}. {err}")`. -/
def metadataErrMsg (path e : Str) : Str :=
  "error getting file metadata: ".toList ++ path ++ ". ".toList ++ e

/-- Error text `format!("error scanning file for content type: {path_buf}. {err}")`. -/
def shortReadErrMsg (path : Str) : Str :=
  "error scanning file for content type: ".toList ++ path

/-- The blocking closure of `file_is_text`, parametric in the external
`content_inspector::inspect` heuristic: open the file, read its metadata,
`read_exact` a buffer of `min(file_length, 2048)` bytes (a short read is an
error), and report whether the inspected sample is a text encoding. -/
def file_is_text_core (inspect : List Nat → ContentType) (path : Str)
    (f : FileModel) : Except Str Bool :=
  match f.openErr with
  | some e => .error (openErrMsg path e)
  | none =>
    match f.metadataErr with
    | some e => .error (metadataErrMsg path e)
    | none =>
      let length_to_read := min f.length 2048
      if f.content.length < length_to_read then
        .error (shortReadErrMsg path)
      else
        let buffer := f.content.take length_to_read
        .ok (detectedAsText (inspect buffer))

/-! ## LineScanner (`get_matches_in_file`) -/

/-- Outcome of one `reader.lines()` item: a decoded line, an
`ErrorKind::InvalidData` decode failure, or any other IO error. -/
inductive LineResult where
  | ok (line : Str)
  | errInvalidData (msg : Str)
  | errOther (msg : Str)
deriving DecidableEq, Repr

/-- One observable output of the program: a line on stdout (`println!`) or
on stderr (`eprintln!`). -/
inductive OutEvent where
  | stdout (msg : Str)
  | stderr (msg : Str)
deriving DecidableEq, Repr

/-- Message `format!("failed to read line from file {path_buf}: {err}")`. -/
def readLineErrMsg (path e : Str) : Str :=
  "failed to read line from file ".toList ++ path ++ ": ".toList ++ e

/-- The `for (line_number, line_result) in reader.lines().enumerate()` loop
of `get_matches_in_file`, started at index `i`: a decoded line containing
the pattern pushes a `Match`; an `InvalidData` error is silently skipped;
any other error prints a message via `println!` (stdout) and the line is
skipped. Returns the collected matches and the emitted output events. -/
def scanLoop (path pattern : Str) : Nat → List LineResult → List Match × List OutEvent
  | _, [] => ([], [])
  | i, r :: rest =>
    let tail := scanLoop path pattern (i + 1) rest
    match r with
    | .ok line =>
      (if containsSub line pattern then ⟨path, i, line⟩ :: tail.1 else tail.1, tail.2)
    | .errInvalidData _ => tail
    | .errOther e => (tail.1, .stdout (readLineErrMsg path e) :: tail.2)

/-! ## ConcurrencyGovernor (the tokio `Semaphore`) -/

/-- A semaphore operation: acquiring one permit or releasing one. -/
inductive SemOp where
  | acq
  | rel
deriving DecidableEq, Repr

/-- One transition of the semaphore with capacity `cap`, on the count of
outstanding permits: `acq` only proceeds while a slot is free (otherwise
the caller suspends — no transition), `rel` returns an outstanding permit. -/
def semStep (cap outstanding : Nat) : SemOp → Option Nat
  | .acq => if outstanding < cap then some (outstanding + 1) else none
  | .rel => if 0 < outstanding then some (outstanding - 1) else none

/-- Run a sequence of semaphore transitions from a starting count;
`none` if any transition is unavailable. -/
def semRun (cap : Nat) : Nat → List SemOp → Option Nat
  | st, [] => some st
  | st, op :: ops =>
    match semStep cap st op with
    | some st' => semRun cap st' ops
    | none => none

/-- Events of one classification or scan operation, as far as the permit
discipline is concerned: acquiring the semaphore permit, attempting the
`File::open`, and releasing the permit. -/
inductive Ev where
  | acquire
  | openAttempt
  | release
deriving DecidableEq, Repr

/-- The permit/open event trace of `file_is_text`: if the acquire itself
fails the function returns at once (nothing acquired, nothing opened);
otherwise the open is attempted inside the blocking task and the permit is
released on every exit path (explicit `drop` on success, RAII drop when
`?` propagates an error) before the function returns. -/
def fileIsTextTrace (acquireOk : Bool) : List Ev :=
  if acquireOk then [.acquire, .openAttempt, .release] else []

/-- The permit/open event trace of `get_matches_in_file`; same shape:
acquire, then the open attempt in the blocking task, then release on every
exit path. -/
def getMatchesTrace (acquireOk : Bool) : List Ev :=
  if acquireOk then [.acquire, .openAttempt, .release] else []

/-- Number of acquires in a trace. -/
def acqCount (t : List Ev) : Nat := t.countP (fun e => e == Ev.acquire)

/-- Number of releases in a trace. -/
def relCount (t : List Ev) : Nat := t.countP (fun e => e == Ev.release)

/-- A trace is balanced when every acquired permit is released by the end. -/
def balanced (t : List Ev) : Bool := acqCount t == relCount t

/-- Every `openAttempt` in the trace happens while at least one permit is
held (more acquires than releases strictly before it). -/
def openGuarded : List Ev → Bool :=
  go 0
where
  /-- `held` counts permits currently held. -/
  go (held : Nat) : List Ev → Bool
    | [] => true
    | .acquire :: t => go (held + 1) t
    | .release :: t => go (held - 1) t
    | .openAttempt :: t => decide (0 < held) && go held t

/-! ## DirectoryWalker (`process_entry`, `process_file`, `process_dir`) -/

/-- Error text `format!("error acquring permit: {err}")` (sic). -/
def acquireErrMsg : Str := "error acquring permit".toList

/-- Per-file IO model seen by `process_file`: the classifier's view of the
file, whether each of the two semaphore acquires succeeds, whether the
scanner's `File::open` fails, and the line results the scanner reads. -/
structure FileNode where
  clsAcquireOk : Bool
  fm : FileModel
  scanAcquireOk : Bool
  scanOpenErr : Option Str
  lines : List LineResult
deriving DecidableEq, Repr

/-- `file_is_text` in full: acquire a permit (failure is an error), then
the blocking classification closure (`file_is_text_core`). -/
def file_is_text (inspect : List Nat → ContentType) (path : Str)
    (n : FileNode) : Except Str Bool :=
  if n.clsAcquireOk then file_is_text_core inspect path n.fm
  else .error acquireErrMsg

/-- `get_matches_in_file` in full: acquire a permit, open the file (either
failure is an error), then run the scanning loop from line 0. -/
def get_matches_in_file (path pattern : Str) (n : FileNode) :
    Except Str (List Match × List OutEvent) :=
  if n.scanAcquireOk then
    match n.scanOpenErr with
    | some e => .error (openErrMsg path e)
    | none => .ok (scanLoop path pattern 0 n.lines)
  else .error acquireErrMsg

/-- Message `eprintln!("Error detecting file type: {err}")`. -/
def detectErrMsg (e : Str) : Str := "Error detecting file type: ".toList ++ e

/-- `process_file`: classify; on classification error report it on stderr
and treat the file as binary; scan only when classified text; on scan
error report it on stderr and return no matches. Returns the matches and
the output events in order. -/
def process_file (inspect : List Nat → ContentType) (path pattern : Str)
    (n : FileNode) : List Match × List OutEvent :=
  let cls := file_is_text inspect path n
  let clsEvents : List OutEvent :=
    match cls with
    | .error e => [.stderr (detectErrMsg e)]
    | .ok _ => []
  let isText := match cls with | .ok b => b | .error _ => false
  if isText then
    match get_matches_in_file path pattern n with
    | .ok r => (r.1, clsEvents ++ r.2)
    | .error e => ([], clsEvents ++ [.stderr e])
  else ([], clsEvents)

mutual
/-- A filesystem tree as `process_entry` observes it: a non-directory path
(regular file, or a path that does not exist — `is_dir()` is false either
way) with its per-file IO model; a directory whose listing fails with an
error message; or a directory with its list of child outcomes. -/
inductive FsTree where
  | file : Str → FileNode → FsTree
  | dirErr : Str → Str → FsTree
  | dir : Str → List ChildEntry → FsTree

/-- One `read_dir_utf8` child outcome: an entry that failed to enumerate
(with its error text), or an entry whose spawned task runs a subtree —
`some e` marks a task whose join failed with error `e`. -/
inductive ChildEntry where
  | enumErr : Str → ChildEntry
  | task : Option Str → FsTree → ChildEntry
end

/-- Message `format!("could not get child entry: {err}")`. -/
def childErrMsg (e : Str) : Str := "could not get child entry: ".toList ++ e

/-- Message `eprintln!("Error getting results: {message}")`. -/
def joinErrMsg (e : Str) : Str := "Error getting results: ".toList ++ e

mutual
/-- `process_entry`: a directory goes to the directory fan-out, anything
else (including a nonexistent path) goes to `process_file`. -/
def process_entry (inspect : List Nat → ContentType) (pattern : Str) :
    FsTree → List Match × List OutEvent
  | .file path n => process_file inspect path pattern n
  | .dirErr _ e => ([], [.stderr e])
  | .dir _ cs =>
    let enumEvs : List OutEvent := cs.filterMap fun c =>
      match c with
      | .enumErr e => some (OutEvent.stderr (childErrMsg e))
      | .task _ _ => none
    let joinEvs : List OutEvent := cs.filterMap fun c =>
      match c with
      | .task (some e) _ => some (OutEvent.stderr (joinErrMsg e))
      | _ => none
    let r := processTasks inspect pattern cs
    (r.1, enumEvs ++ r.2 ++ joinEvs)

/-- The spawned tasks of one directory: enumeration failures spawn
nothing; a task whose join failed contributes neither matches nor events
(its results are absent); a joined task contributes its subtree's matches
and events. -/
def processTasks (inspect : List Nat → ContentType) (pattern : Str) :
    List ChildEntry → List Match × List OutEvent
  | [] => ([], [])
  | .enumErr _ :: rest => processTasks inspect pattern rest
  | .task (some _) _ :: rest => processTasks inspect pattern rest
  | .task none t :: rest =>
    let r := process_entry inspect pattern t
    let rs := processTasks inspect pattern rest
    (r.1 ++ rs.1, r.2 ++ rs.2)
end

/-! ## Theorems: the line scanner (C1) -/

/-- Every match the scan loop emits carries the scanned path, a line
number at least the starting index, and the decoded content of that line,
which contains the pattern. -/
theorem scanLoop_mem {path pattern : Str} {n : Nat} {lines : List LineResult} {m : Match}
    (h : m ∈ (scanLoop path pattern n lines).1) :
    n ≤ m.line_number ∧ m.file_path = path ∧
      ∃ l, lines.get? (m.line_number - n) = some (.ok l) ∧ m.line = l ∧
        containsSub l pattern = true := by
  induction lines generalizing n with
  | nil => simp [scanLoop] at h
  | cons r rest ih =>
    match r with
    | .ok line =>
      simp only [scanLoop] at h
      by_cases hc : containsSub line pattern = true
      · rw [if_pos hc] at h
        rcases List.mem_cons.mp h with hm | hm
        · subst hm
          exact ⟨Nat.le_refl n, rfl, line, by simp, rfl, hc⟩
        · obtain ⟨hle, hp, l, hget, hl, hcont⟩ := ih hm
          refine ⟨Nat.le_of_succ_le hle, hp, l, ?_, hl, hcont⟩
          have : m.line_number - n = (m.line_number - (n + 1)) + 1 := by omega
          rw [this]
          simpa using hget
      · rw [if_neg hc] at h
        obtain ⟨hle, hp, l, hget, hl, hcont⟩ := ih h
        refine ⟨Nat.le_of_succ_le hle, hp, l, ?_, hl, hcont⟩
        have : m.line_number - n = (m.line_number - (n + 1)) + 1 := by omega
        rw [this]
        simpa using hget
    | .errInvalidData e =>
      simp only [scanLoop] at h
      obtain ⟨hle, hp, l, hget, hl, hcont⟩ := ih h
      refine ⟨Nat.le_of_succ_le hle, hp, l, ?_, hl, hcont⟩
      have : m.line_number - n = (m.line_number - (n + 1)) + 1 := by omega
      rw [this]
      simpa using hget
    | .errOther e =>
      simp only [scanLoop] at h
      obtain ⟨hle, hp, l, hget, hl, hcont⟩ := ih h
      refine ⟨Nat.le_of_succ_le hle, hp, l, ?_, hl, hcont⟩
      have : m.line_number - n = (m.line_number - (n + 1)) + 1 := by omega
      rw [this]
      simpa using hget

/-- Restricting the scan loop's matches to one line index recovers exactly
the single match of that line, when the line decodes and contains the
pattern. -/
theorem scanLoop_filter_line (path : Str) {pattern : Str} {lines : List LineResult}
    (n i : Nat) (l : Str)
    (hget : lines.get? i = some (.ok l)) (hcont : containsSub l pattern = true) :
    (scanLoop path pattern n lines).1.filter (fun m => m.line_number == n + i)
      = [⟨path, n + i, l⟩] := by
  induction lines generalizing n i with
  | nil => simp at hget
  | cons r rest ih =>
    have tail_nomem : ∀ m ∈ (scanLoop path pattern (n + 1) rest).1,
        (m.line_number == n) = false := by
      intro m hm
      have := (scanLoop_mem hm).1
      simp only [beq_eq_false_iff_ne, ne_eq]
      omega
    match i, hget with
    | 0, hget =>
      have hr : r = .ok l := by simpa using hget
      subst hr
      simp only [scanLoop, hcont, if_pos]
      rw [Nat.add_zero]
      rw [List.filter_cons_of_pos (by simp)]
      have : (scanLoop path pattern (n + 1) rest).1.filter (fun m => m.line_number == n)
          = [] := List.filter_eq_nil_iff.mpr (by intro m hm; simpa using tail_nomem m hm)
      rw [this]
    | (j : Nat) + 1, hget =>
      have hget' : rest.get? j = some (.ok l) := by simpa using hget
      have ihj := ih (n + 1) j hget'
      have harith : n + (j + 1) = (n + 1) + j := by omega
      match r with
      | .ok line =>
        simp only [scanLoop]
        by_cases hc : containsSub line pattern = true
        · rw [if_pos hc]
          rw [List.filter_cons_of_neg (by simp)]
          rw [harith]
          exact ihj
        · rw [if_neg hc]
          rw [harith]
          exact ihj
      | .errInvalidData e =>
        simp only [scanLoop]
        rw [harith]
        exact ihj
      | .errOther e =>
        simp only [scanLoop]
        rw [harith]
        exact ihj

/-- The scan loop's matches carry strictly increasing line numbers. -/
theorem scanLoop_chain (path pattern : Str) (n : Nat) (lines : List LineResult) :
    List.Chain' (fun a b => a.line_number < b.line_number)
      (scanLoop path pattern n lines).1 := by
  induction lines generalizing n with
  | nil => simp [scanLoop]
  | cons r rest ih =>
    match r with
    | .ok line =>
      simp only [scanLoop]
      by_cases hc : containsSub line pattern = true
      · rw [if_pos hc]
        refine List.chain'_cons'.mpr ⟨?_, ih (n + 1)⟩
        intro b hb
        have hmem : b ∈ (scanLoop path pattern (n + 1) rest).1 :=
          List.mem_of_mem_head? hb
        have := (scanLoop_mem hmem).1
        simpa using Nat.lt_of_succ_le this
      · rw [if_neg hc]
        exact ih (n + 1)
    | .errInvalidData e => simpa only [scanLoop] using ih (n + 1)
    | .errOther e => simpa only [scanLoop] using ih (n + 1)

/-- C1: for a Text file, the scan emits, for each 0-indexed line that
decodes and contains the pattern, exactly one `Match` carrying the file's
path, that line number and the original line content; matches appear in
increasing line-number order; and every emitted match comes from a line
containing the pattern. -/
theorem C1_scan_matches (path pattern : Str) (lines : List LineResult) :
    (∀ i l, lines.get? i = some (.ok l) → containsSub l pattern = true →
      (scanLoop path pattern 0 lines).1.filter (fun m => m.line_number == i)
        = [⟨path, i, l⟩])
    ∧ (∀ m ∈ (scanLoop path pattern 0 lines).1,
        m.file_path = path ∧ ∃ l, lines.get? m.line_number = some (.ok l) ∧
          m.line = l ∧ containsSub l pattern = true)
    ∧ List.Chain' (fun a b => a.line_number < b.line_number)
        (scanLoop path pattern 0 lines).1 := by
  refine ⟨?_, ?_, scanLoop_chain path pattern 0 lines⟩
  · intro i l hget hcont
    have := scanLoop_filter_line path 0 i l hget hcont
    simpa using this
  · intro m hm
    obtain ⟨_, hp, l, hget, hl, hcont⟩ := scanLoop_mem hm
    exact ⟨hp, l, by simpa using hget, hl, hcont⟩

/-- Witness for C1 on a concrete file: lines `"hello"`, `"world hello"`,
an undecodable line, and `"none"`, with pattern `"hello"`. -/
theorem C1_scan_matches_witness :
    (scanLoop "a".toList "hello".toList 0
        [.ok "hello".toList, .ok "world hello".toList,
         .errInvalidData [], .ok "none".toList]).1.filter
        (fun m => m.line_number == 1)
      = [⟨"a".toList, 1, "world hello".toList⟩] :=
  (C1_scan_matches "a".toList "hello".toList
    [.ok "hello".toList, .ok "world hello".toList,
     .errInvalidData [], .ok "none".toList]).1
    1 "world hello".toList (by decide) (by decide)

/-! ## Theorems: the concurrency governor (C2) -/

/-- Any state reached by a run of available semaphore transitions from a
state within capacity stays within capacity. -/
theorem semRun_le (cap : Nat) :
    ∀ (ops : List SemOp) (st st' : Nat), st ≤ cap →
      semRun cap st ops = some st' → st' ≤ cap := by
  intro ops
  induction ops with
  | nil =>
    intro st st' hle h
    simp only [semRun, Option.some.injEq] at h
    omega
  | cons op rest ih =>
    intro st st' hle h
    match op with
    | .acq =>
      simp only [semRun, semStep] at h
      by_cases hlt : st < cap
      · rw [if_pos hlt] at h
        exact ih (st + 1) st' (by omega) h
      · rw [if_neg hlt] at h
        exact absurd h (by simp)
    | .rel =>
      simp only [semRun, semStep] at h
      by_cases hpos : 0 < st
      · rw [if_pos hpos] at h
        exact ih (st - 1) st' (by omega) h
      · rw [if_neg hpos] at h
        exact absurd h (by simp)

/-- C2: the count of outstanding permits never exceeds the pool capacity
(every state a run of the semaphore machine can reach from the idle state
is within capacity), and in both the classification operation and the scan
operation the file-open attempt happens while a permit is held and every
acquired permit is released before the operation returns, on success and
error paths alike. -/
theorem C2_permit_discipline (cap : Nat) :
    (∀ (ops : List SemOp) (st' : Nat), semRun cap 0 ops = some st' → st' ≤ cap)
    ∧ (∀ b, balanced (fileIsTextTrace b) = true ∧ openGuarded (fileIsTextTrace b) = true)
    ∧ (∀ b, balanced (getMatchesTrace b) = true ∧ openGuarded (getMatchesTrace b) = true) := by
  refine ⟨fun ops st' h => semRun_le cap ops 0 st' (Nat.zero_le cap) h, ?_, ?_⟩
  · intro b
    cases b <;> exact ⟨by decide, by decide⟩
  · intro b
    cases b <;> exact ⟨by decide, by decide⟩

/-- Witness for C2: a concrete acquire/release run with capacity 1 ends
within capacity, and the concrete operation traces are balanced and
open-guarded. -/
theorem C2_permit_discipline_witness :
    0 ≤ 1 ∧ balanced (fileIsTextTrace true) = true
      ∧ openGuarded (getMatchesTrace true) = true :=
  ⟨(C2_permit_discipline 1).1 [.acq, .rel] 0 rfl,
   ((C2_permit_discipline 1).2.1 true).1,
   ((C2_permit_discipline 1).2.2 true).2⟩

/-! ## Theorems: the file classifier (C3) -/

/-- C3: classification reads exactly `min(file_length, 2048)` bytes from
the start of the file (never more than 2048, and 0 for a zero-length
file), classifies the sample as Text exactly when the heuristic recognizes
one of the six Unicode encodings, and fails when the open fails, the
metadata read fails, or fewer bytes than requested are available. -/
theorem C3_classifier (inspect : List Nat → ContentType) (path : Str) (f : FileModel) :
    (f.openErr = none → f.metadataErr = none → min f.length 2048 ≤ f.content.length →
      file_is_text_core inspect path f
          = .ok (detectedAsText (inspect (f.content.take (min f.length 2048))))
        ∧ (f.content.take (min f.length 2048)).length = min f.length 2048
        ∧ (f.content.take (min f.length 2048)).length ≤ 2048
        ∧ (f.length = 0 → f.content.take (min f.length 2048) = [])
        ∧ (detectedAsText (inspect (f.content.take (min f.length 2048))) = true ↔
            (inspect (f.content.take (min f.length 2048)) = .UTF_8
              ∨ inspect (f.content.take (min f.length 2048)) = .UTF_8_BOM
              ∨ inspect (f.content.take (min f.length 2048)) = .UTF_16LE
              ∨ inspect (f.content.take (min f.length 2048)) = .UTF_16BE
              ∨ inspect (f.content.take (min f.length 2048)) = .UTF_32LE
              ∨ inspect (f.content.take (min f.length 2048)) = .UTF_32BE)))
    ∧ ((f.openErr ≠ none ∨ f.metadataErr ≠ none ∨ f.content.length < min f.length 2048) →
        ∃ msg, file_is_text_core inspect path f = .error msg) := by
  constructor
  · intro ho hm hlen
    refine ⟨?_, ?_, ?_, ?_, ?_⟩
    · simp [file_is_text_core, ho, hm, Nat.not_lt.mpr hlen]
    · simp only [List.length_take]
      omega
    · simp only [List.length_take]
      omega
    · intro h0
      simp [h0]
    · cases hc : inspect (f.content.take (min f.length 2048)) <;> simp [detectedAsText]
  · intro h
    cases hoe : f.openErr with
    | some e => exact ⟨openErrMsg path e, by simp [file_is_text_core, hoe]⟩
    | none =>
      cases hme : f.metadataErr with
      | some e => exact ⟨metadataErrMsg path e, by simp [file_is_text_core, hoe, hme]⟩
      | none =>
        have hlt : f.content.length < min f.length 2048 := by
          rcases h with h | h | h
          · exact absurd hoe h
          · exact absurd hme h
          · exact h
        exact ⟨shortReadErrMsg path, by simp [file_is_text_core, hoe, hme, hlt]⟩

/-- Witness for C3: a readable five-byte file inspected as UTF-8 is
classified text, and a file whose open fails yields an error. -/
theorem C3_classifier_witness :
    file_is_text_core (fun _ => ContentType.UTF_8) "p".toList
        ⟨none, none, 5, [0, 1, 2, 3, 4]⟩ = .ok true
      ∧ ∃ msg, file_is_text_core (fun _ => ContentType.UTF_8) "p".toList
          ⟨some "denied".toList, none, 5, [0, 1, 2, 3, 4]⟩ = .error msg :=
  ⟨((C3_classifier (fun _ => ContentType.UTF_8) "p".toList
      ⟨none, none, 5, [0, 1, 2, 3, 4]⟩).1 rfl rfl (by decide)).1,
   (C3_classifier (fun _ => ContentType.UTF_8) "p".toList
      ⟨some "denied".toList, none, 5, [0, 1, 2, 3, 4]⟩).2 (Or.inl (by simp))⟩

/-! ## Theorems: binary and failed files produce no matches (C4) -/

/-- C4: a file classified Binary, and a file whose classification fails,
contribute the empty match sequence regardless of content; a
classification failure is surfaced on stderr. -/
theorem C4_binary_no_matches (inspect : List Nat → ContentType) (path pattern : Str)
    (n : FileNode)
    (h : file_is_text inspect path n = .ok false
      ∨ ∃ e, file_is_text inspect path n = .error e) :
    (process_file inspect path pattern n).1 = []
      ∧ (∀ e, file_is_text inspect path n = .error e →
          OutEvent.stderr (detectErrMsg e) ∈ (process_file inspect path pattern n).2) := by
  constructor
  · rcases h with h | ⟨e, h⟩ <;> simp [process_file, h]
  · intro e he
    simp [process_file, he]

/-- Witness for C4: a file inspected as binary whose lines do contain the
pattern still contributes zero matches. -/
theorem C4_binary_no_matches_witness :
    (process_file (fun _ => ContentType.BINARY) "b.bin".toList "hello".toList
        ⟨true, ⟨none, none, 3, [255, 255, 255]⟩, true, none,
         [.ok "hello".toList]⟩).1 = [] :=
  (C4_binary_no_matches (fun _ => ContentType.BINARY) "b.bin".toList "hello".toList
    ⟨true, ⟨none, none, 3, [255, 255, 255]⟩, true, none, [.ok "hello".toList]⟩
    (Or.inl rfl)).1

/-! ## Theorems: per-line read errors go to stdout, not stderr (C6) -/

/-- C6 counterexample evaluation: `get_matches_in_file` reports a
non-`InvalidData` per-line read error with `println!`, so the message is
emitted on standard output (the `OutEvent.stdout` channel), not standard
error; an `InvalidData` line is silently skipped with no report. This
contradicts the claim that every non-fatal error goes to the
side-channel. -/
theorem C6_line_error_on_stdout :
    (scanLoop "f".toList "x".toList 0 [.errOther "boom".toList]).2
        = [.stdout (readLineErrMsg "f".toList "boom".toList)]
      ∧ (scanLoop "f".toList "x".toList 0 [.errInvalidData "bad".toList]).2 = [] :=
  ⟨rfl, rfl⟩

/-! ## Theorems: directory traversal error recovery (C5) -/

/-- C5: a directory whose listing fails yields the empty result with the
error reported on stderr; the matches of a directory are exactly the
concatenation of the matches of its successfully enumerated, successfully
joined children (failed entries are excluded, siblings unaffected); and a
child that fails to enumerate costs nothing beyond its stderr report —
every error below the top level is recovered locally, the traversal
function is total and never aborts. -/
theorem C5_local_recovery (inspect : List Nat → ContentType) (pattern : Str) :
    (∀ p e, process_entry inspect pattern (.dirErr p e) = ([], [.stderr e]))
    ∧ (∀ cs, (processTasks inspect pattern cs).1
        = cs.flatMap (fun c =>
            match c with
            | .task none t => (process_entry inspect pattern t).1
            | _ => []))
    ∧ (∀ p e rest,
        (process_entry inspect pattern (.dir p (.enumErr e :: rest))).1
            = (process_entry inspect pattern (.dir p rest)).1
          ∧ OutEvent.stderr (childErrMsg e)
              ∈ (process_entry inspect pattern (.dir p (.enumErr e :: rest))).2) := by
  refine ⟨fun p e => by simp [process_entry], ?_, ?_⟩
  · intro cs
    induction cs with
    | nil => simp [processTasks]
    | cons c rest ih =>
      match c with
      | .enumErr e => simpa [processTasks] using ih
      | .task (some j) t => simpa [processTasks] using ih
      | .task none t => simp [processTasks, ih]
  · intro p e rest
    constructor
    · simp [process_entry, processTasks]
    · simp [process_entry, processTasks]

/-! ## Theorems: searches are idempotent up to ordering (C9) -/

/-- C9: over an unchanged tree, any two runs of the search — each free to
deliver the deterministic match collection in any completion order —
yield the same multiset of `Match` values. -/
theorem C9_idempotent_multiset (inspect : List Nat → ContentType) (pattern : Str)
    (t : FsTree) (run1 run2 : List Match)
    (h1 : run1.Perm (process_entry inspect pattern t).1)
    (h2 : run2.Perm (process_entry inspect pattern t).1) :
    (run1 : Multiset Match) = (run2 : Multiset Match) :=
  Multiset.coe_eq_coe.mpr (h1.trans h2.symm)

/-- Witness for C9: two differently ordered runs over a two-file
directory carry the same multiset. -/
theorem C9_idempotent_multiset_witness :
    (([⟨"a".toList, 0, "hi".toList⟩, ⟨"b".toList, 0, "hi".toList⟩] : List Match)
        : Multiset Match)
      = (([⟨"b".toList, 0, "hi".toList⟩, ⟨"a".toList, 0, "hi".toList⟩] : List Match)
        : Multiset Match) :=
  C9_idempotent_multiset (fun _ => ContentType.UTF_8) "hi".toList
    (.dir "r".toList
      [.task none (.file "a".toList ⟨true, ⟨none, none, 2, [104, 105]⟩, true, none,
          [.ok "hi".toList]⟩),
       .task none (.file "b".toList ⟨true, ⟨none, none, 2, [104, 105]⟩, true, none,
          [.ok "hi".toList]⟩)])
    [⟨"a".toList, 0, "hi".toList⟩, ⟨"b".toList, 0, "hi".toList⟩]
    [⟨"b".toList, 0, "hi".toList⟩, ⟨"a".toList, 0, "hi".toList⟩]
    (by decide) (by decide)

/-! ## Theorems: non-directory roots take the per-file path (C10) -/

/-- C10: a root that is not a directory — including a path that does not
exist — is routed to `process_file`; when the classifier's open fails the
failure is reported on stderr and the search returns the empty match
sequence instead of failing. -/
theorem C10_nonexistent_root (inspect : List Nat → ContentType) (path pattern e : Str)
    (n : FileNode) (hacq : n.clsAcquireOk = true) (hopen : n.fm.openErr = some e) :
    process_entry inspect pattern (.file path n)
        = process_file inspect path pattern n
      ∧ process_entry inspect pattern (.file path n)
        = ([], [.stderr (detectErrMsg (openErrMsg path e))]) := by
  refine ⟨by simp [process_entry], ?_⟩
  simp [process_entry, process_file, file_is_text, file_is_text_core, hacq, hopen]

/-- Witness for C10: a nonexistent path (its open fails with
"No such file or directory") yields no matches and one stderr report. -/
theorem C10_nonexistent_root_witness :
    process_entry (fun _ => ContentType.UTF_8) "hello".toList
        (.file "missing".toList
          ⟨true, ⟨some "No such file or directory".toList, none, 0, []⟩, true, none, []⟩)
      = ([], [.stderr (detectErrMsg
          (openErrMsg "missing".toList "No such file or directory".toList))]) :=
  (C10_nonexistent_root (fun _ => ContentType.UTF_8) "missing".toList "hello".toList
    "No such file or directory".toList
    ⟨true, ⟨some "No such file or directory".toList, none, 0, []⟩, true, none, []⟩
    rfl rfl).2

/-! ## Theorems: column alignment of the formatter (C7) -/

/-- Every element of a list is bounded by its Rust-style maximum. -/
theorem iterMax_le {l : List Nat} {x : Nat} (h : x ∈ l) : x ≤ (iterMax l).getD 0 := by
  induction l with
  | nil => simp at h
  | cons y ys ih =>
    rcases List.mem_cons.mp h with hx | hx
    · subst hx
      cases hm : iterMax ys with
      | none => simp [iterMax, hm]
      | some z => simp [iterMax, hm]
    · have := ih hx
      cases hm : iterMax ys with
      | none =>
        cases ys with
        | nil => simp at hx
        | cons z zs => simp [iterMax] at hm
      | some z =>
        simp only [iterMax, hm, Option.getD_some] at this ⊢
        omega

/-- C7: with the width maxima computed over the full match set, every
rendered result line is the red-coloured `path:line_number` reference,
right-padded with spaces to exactly
`max_path_width + max_line_number_width + 1` characters and never
truncated (the reference appears intact as a prefix), followed by the
separator glyph and the highlighted line; on the empty match set both
width maxima are treated as 0. -/
theorem C7_aligned_columns (ms : List Match) (pattern : Str) :
    (∀ m ∈ ms,
      format_as_result m pattern (maxPathLength ms) (maxLineNumberLength ms)
          = redCode
            ++ (fileRefOf m
                ++ List.replicate
                  (((maxPathLength ms).getD 0 + (maxLineNumberLength ms).getD 0 + 1)
                    - (fileRefOf m).length) ' ')
            ++ [sepGlyph] ++ resetCode
            ++ rustReplace m.line pattern (blueStr pattern)
        ∧ (fileRefOf m
            ++ List.replicate
              (((maxPathLength ms).getD 0 + (maxLineNumberLength ms).getD 0 + 1)
                - (fileRefOf m).length) ' ').length
          = (maxPathLength ms).getD 0 + (maxLineNumberLength ms).getD 0 + 1)
    ∧ (maxPathLength []).getD 0 = 0 ∧ (maxLineNumberLength []).getD 0 = 0 := by
  refine ⟨?_, rfl, rfl⟩
  intro m hm
  have hpath : m.file_path.length ≤ (maxPathLength ms).getD 0 :=
    iterMax_le (List.mem_map_of_mem (fun x => x.file_path.length) hm)
  have hnum : (Nat.toDigits 10 m.line_number).length ≤ (maxLineNumberLength ms).getD 0 :=
    iterMax_le (List.mem_map_of_mem (fun x => (Nat.toDigits 10 x.line_number).length) hm)
  have href : (fileRefOf m).length
      ≤ (maxPathLength ms).getD 0 + (maxLineNumberLength ms).getD 0 + 1 := by
    simp only [fileRefOf, List.length_append, List.length_cons]
    omega
  constructor
  · simp [format_as_result, padLeftAlign, List.append_assoc]
  · simp only [List.length_append, List.length_replicate]
    omega

/-- Witness for C7 on the spec's round-trip example: path widths 3 and
10, line numbers 1 and 42; the narrower entry's padded reference field
also measures `10 + 2 + 1` characters. -/
theorem C7_aligned_columns_witness :
    (fileRefOf ⟨"abc".toList, 1, "x".toList⟩
        ++ List.replicate
          (((maxPathLength [⟨"abc".toList, 1, "x".toList⟩,
              ⟨"abcdefghij".toList, 42, "y".toList⟩]).getD 0
            + (maxLineNumberLength [⟨"abc".toList, 1, "x".toList⟩,
                ⟨"abcdefghij".toList, 42, "y".toList⟩]).getD 0 + 1)
            - (fileRefOf ⟨"abc".toList, 1, "x".toList⟩).length) ' ').length
      = (maxPathLength [⟨"abc".toList, 1, "x".toList⟩,
          ⟨"abcdefghij".toList, 42, "y".toList⟩]).getD 0
        + (maxLineNumberLength [⟨"abc".toList, 1, "x".toList⟩,
            ⟨"abcdefghij".toList, 42, "y".toList⟩]).getD 0 + 1 :=
  ((C7_aligned_columns
      [⟨"abc".toList, 1, "x".toList⟩, ⟨"abcdefghij".toList, 42, "y".toList⟩]
      "q".toList).1
    ⟨"abc".toList, 1, "x".toList⟩ (by decide)).2

/-! ## Theorems: highlighting alters rendering only (C8) -/

/-- A successful `startsWith` splits the string as pattern followed by the
remainder. -/
theorem startsWith_append_drop :
    ∀ {p s : Str}, startsWith s p = true → p ++ s.drop p.length = s := by
  intro p
  induction p with
  | nil =>
    intro s _
    simp
  | cons d ds ih =>
    intro s h
    match s with
    | [] => simp [startsWith] at h
    | c :: cs =>
      simp only [startsWith, Bool.and_eq_true, beq_iff_eq] at h
      obtain ⟨hcd, hsw⟩ := h
      simp only [List.cons_append, List.length_cons, List.drop_succ_cons]
      rw [ih hsw, hcd]

/-- The stripper passes a non-escape character through. -/
theorem stripAnsi_cons_ne {c : Char} (cs : Str) (hc : (c == escChar) = false) :
    stripAnsi false (c :: cs) = c :: stripAnsi false cs := by
  simp [stripAnsi, hc]

/-- Escape-free text passes through the ANSI stripper unchanged. -/
theorem stripAnsi_append_of_not_mem :
    ∀ {xs : Str} (ys : Str), escChar ∉ xs →
      stripAnsi false (xs ++ ys) = xs ++ stripAnsi false ys := by
  intro xs
  induction xs with
  | nil => intro ys _; rfl
  | cons c cs ih =>
    intro ys hmem
    have hc : (c == escChar) = false :=
      beq_eq_false_iff_ne.mpr (fun h => hmem (h ▸ List.mem_cons_self c cs))
    rw [List.cons_append, stripAnsi_cons_ne _ hc,
      ih ys (fun h => hmem (List.mem_cons_of_mem c h)), List.cons_append]

/-- The stripper consumes a leading blue colour code. -/
theorem stripAnsi_blueCode (ys : Str) :
    stripAnsi false (blueCode ++ ys) = stripAnsi false ys := rfl

/-- The stripper consumes a leading reset code. -/
theorem stripAnsi_resetCode (ys : Str) :
    stripAnsi false (resetCode ++ ys) = stripAnsi false ys := rfl

/-- Stripping the replacement loop's output recovers the original text:
each replaced occurrence strips back to the pattern's own characters, and
untouched characters pass through. -/
theorem stripAnsi_replaceLoop (p : Str) (hpe : escChar ∉ p) :
    ∀ (k : Nat) (s : Str), s.length ≤ k → escChar ∉ s →
      stripAnsi false (replaceLoop p (blueStr p) s) = s := by
  intro k
  induction k with
  | zero =>
    intro s hlen _
    have : s = [] := List.eq_nil_of_length_eq_zero (Nat.le_zero.mp hlen)
    subst this
    rw [replaceLoop]
    rfl
  | succ k ih =>
    intro s hlen hmem
    match s with
    | [] =>
      rw [replaceLoop]
      rfl
    | c :: cs =>
      rw [replaceLoop]
      by_cases hsw : p ≠ [] ∧ startsWith (c :: cs) p = true
      · rw [if_pos hsw]
        have hplen : 1 ≤ p.length := by
          cases p with
          | nil => exact absurd rfl hsw.1
          | cons _ _ => simp
        have hdroplen : ((c :: cs).drop p.length).length ≤ k := by
          simp only [List.length_drop, List.length_cons]
          simp only [List.length_cons] at hlen
          omega
        have hdropmem : escChar ∉ (c :: cs).drop p.length :=
          fun h => hmem (List.mem_of_mem_drop h)
        have hih := ih ((c :: cs).drop p.length) hdroplen hdropmem
        calc stripAnsi false
              (blueStr p ++ replaceLoop p (blueStr p) ((c :: cs).drop p.length))
            = stripAnsi false
                (blueCode ++ (p ++ (resetCode
                  ++ replaceLoop p (blueStr p) ((c :: cs).drop p.length)))) := by
              simp [blueStr, List.append_assoc]
          _ = p ++ stripAnsi false
                (resetCode ++ replaceLoop p (blueStr p) ((c :: cs).drop p.length)) := by
              rw [stripAnsi_blueCode, stripAnsi_append_of_not_mem _ hpe]
          _ = p ++ (c :: cs).drop p.length := by
              rw [stripAnsi_resetCode, hih]
          _ = c :: cs := startsWith_append_drop hsw.2
      · rw [if_neg hsw]
        have hc : (c == escChar) = false :=
          beq_eq_false_iff_ne.mpr (fun h => hmem (h ▸ List.mem_cons_self c cs))
        have hcs : escChar ∉ cs := fun h => hmem (List.mem_cons_of_mem c h)
        have hlen' : cs.length ≤ k := by
          simp only [List.length_cons] at hlen
          omega
        rw [stripAnsi_cons_ne _ hc, ih cs hlen' hcs]

/-- Stripping the empty-pattern insertion of the replacement recovers the
original text. -/
theorem stripAnsi_flatMap_empty :
    ∀ (s : Str), escChar ∉ s →
      stripAnsi false (s.flatMap (fun c => c :: blueStr [])) = s := by
  intro s
  induction s with
  | nil => intro _; rfl
  | cons c cs ih =>
    intro hmem
    have hc : (c == escChar) = false :=
      beq_eq_false_iff_ne.mpr (fun h => hmem (h ▸ List.mem_cons_self c cs))
    have hcs : escChar ∉ cs := fun h => hmem (List.mem_cons_of_mem c h)
    have hsplit : (c :: cs).flatMap (fun c => c :: blueStr [])
        = c :: (blueCode ++ (resetCode ++ cs.flatMap (fun c => c :: blueStr []))) := by
      simp [blueStr]
    rw [hsplit, stripAnsi_cons_ne _ hc, stripAnsi_blueCode, stripAnsi_resetCode, ih hcs]

/-- C8: highlighting replaces every left-to-right non-overlapping literal
occurrence of the pattern with the same characters wrapped in colour
codes; stripping the colour codes from the rendered line recovers the
original line exactly, for any line and pattern free of the escape
character. -/
theorem C8_highlight_roundtrip (line pattern : Str)
    (hl : escChar ∉ line) (hp : escChar ∉ pattern) :
    stripAnsi false (rustReplace line pattern (blueStr pattern)) = line := by
  by_cases hne : pattern = []
  · subst hne
    rw [rustReplace, if_pos rfl]
    have : blueStr [] ++ line.flatMap (fun c => c :: blueStr [])
        = blueCode ++ (resetCode ++ line.flatMap (fun c => c :: blueStr [])) := by
      simp [blueStr]
    rw [this, stripAnsi_blueCode, stripAnsi_resetCode, stripAnsi_flatMap_empty line hl]
  · rw [rustReplace, if_neg hne]
    exact stripAnsi_replaceLoop pattern hp line.length line (Nat.le_refl _) hl

/-- Witness for C8: stripping the highlighted rendering of
`"say hello hello"` with pattern `"hello"` gives back the line. -/
theorem C8_highlight_roundtrip_witness :
    stripAnsi false
        (rustReplace "say hello hello".toList "hello".toList
          (blueStr "hello".toList))
      = "say hello hello".toList :=
  C8_highlight_roundtrip "say hello hello".toList "hello".toList
    (by decide) (by decide)

end Simgrep
